import Mathlib

/-
Verification of the liko-physics integration layer.
Shallow embedding of src/physics/physics.ts and src/physics/rigidBody.ts.
Pixel and simulation coordinates are modelled over the rationals; the JS
numbers used by the category registry are modelled as natural numbers.
-/

set_option maxHeartbeats 1000000

namespace LikoPhysics

/-! ## Coordinate converter (physics.ts lines 6-34) -/

/-- Embeds the module constant pixelRatio = 50. -/
def pixelRatio : ℚ := 50

/-- Embeds toPhy: pixel length to simulation length, value / pixelRatio. -/
def toPhy (value : ℚ) : ℚ := value / pixelRatio

/-- Embeds to2D: simulation length to pixel length, value * pixelRatio. -/
def to2D (value : ℚ) : ℚ := value * pixelRatio

/-- Embeds toPhyPos: componentwise division by pixelRatio. -/
def toPhyPos (pos : ℚ × ℚ) : ℚ × ℚ := (pos.1 / pixelRatio, pos.2 / pixelRatio)

/-- Embeds to2DPos: componentwise multiplication by pixelRatio. -/
def to2DPos (pos : ℚ × ℚ) : ℚ × ℚ := (pos.1 * pixelRatio, pos.2 * pixelRatio)

/-! ## Collision category registry (physics.ts lines 37-38, 151-170)

The registry state is the private fields of the Physics class: the counter
starting at 1 and the name-to-bit map. The map is an association list with
the most recent assignment at the head; an absent key reads as 0, which is
exactly the falsy check done by the source on a missing property. -/

structure CatState where
  count : Nat
  categoryMap : List (String × Nat)
  deriving DecidableEq

/-- The registry state of a freshly constructed Physics instance. -/
def initCatState : CatState := ⟨1, []⟩

/-- Reads categoryMap[category]; a missing key is the falsy value 0. -/
def lookupCat : List (String × Nat) → String → Nat
  | [], _ => 0
  | (k, v) :: rest, c => if k = c then v else lookupCat rest c

/-- Embeds Physics.getCategoryBit.  A missing or empty name (both falsy in
the source) yields 1; a name whose map entry is falsy is assigned
2 ^ count and the counter is incremented; otherwise the cached bit is
returned unchanged. -/
def getCategoryBit (category : Option String) (s : CatState) : Nat × CatState :=
  match category with
  | none => (1, s)
  | some c =>
    if c = "" then (1, s)
    else
      let cur := lookupCat s.categoryMap c
      if cur = 0 then
        (2 ^ s.count, ⟨s.count + 1, (c, 2 ^ s.count) :: s.categoryMap⟩)
      else
        (cur, s)

/-- Right-nested OR of getCategoryBit over a list of names, threading the
registry state.  Equivalent to the accumulator loop of the source (see
maskFold_eq_maskOr). -/
def maskOr : List String → CatState → Nat × CatState
  | [], s => (0, s)
  | n :: t, s =>
    let r := getCategoryBit (some n) s
    let rest := maskOr t r.2
    (r.1 ||| rest.1, rest.2)

/-- The num |= getCategoryBit(name) accumulator loop of getCategoryMask. -/
def maskFold : List String → Nat → CatState → Nat × CatState
  | [], num, s => (num, s)
  | n :: t, num, s =>
    let r := getCategoryBit (some n) s
    maskFold t (num ||| r.1) r.2

/-- Embeds Physics.getCategoryMask: 65535 for an absent or empty list,
otherwise the OR of the bits of every listed name. -/
def getCategoryMask (masks : Option (List String)) (s : CatState) : Nat × CatState :=
  match masks with
  | none => (65535, s)
  | some l =>
    if l.length = 0 then (65535, s)
    else maskFold l 0 s

/-- Runs a sequence of getCategoryBit calls, keeping only the state. -/
def runCalls : List (Option String) → CatState → CatState
  | [], s => s
  | c :: t, s => runCalls t (getCategoryBit c s).2

/-- The registry invariant: the counter is at least 1, the values stored in
the map (head = newest) are exactly the powers 2 ^ 1 .. 2 ^ (count - 1) in
reverse allocation order, and no name occurs twice. -/
def CatInv (s : CatState) : Prop :=
  1 ≤ s.count ∧
  s.categoryMap.map Prod.snd = ((List.range' 1 (s.count - 1)).map (fun k => 2 ^ k)).reverse ∧
  (s.categoryMap.map Prod.fst).Nodup

/-- A name is stable in a state when a further getCategoryBit call with
that name returns bit b without touching the state: either the name is
empty (bit 1) or it is cached with nonzero bit b. -/
def Stable (n : String) (b : Nat) (s : CatState) : Prop :=
  (n = "" ∧ b = 1) ∨ (n ≠ "" ∧ lookupCat s.categoryMap n = b ∧ b ≠ 0)

/-- Two registry states that agree everywhere except possibly on bits that
are all absorbed by M (and agree on which names are mapped). -/
def StateSim (M : Nat) (s₁ s₂ : CatState) : Prop :=
  s₁.count = s₂.count ∧
  ∀ n, (lookupCat s₁.categoryMap n = 0 ↔ lookupCat s₂.categoryMap n = 0) ∧
    lookupCat s₁.categoryMap n ||| M = lookupCat s₂.categoryMap n ||| M

/-! ## Contact model (physics.ts lines 36-79, 172-201)

A planck contact is modelled by the data this layer reads from it: the
crossSide tag stored in each fixture's user data, the manifold local
normal, and the enabled flag toggled by setEnabled. -/

/-- The one-way platform side tag carried by a fixture's user data. -/
inductive CrossSide
  | left
  | right
  | top
  | bottom
  deriving DecidableEq

structure ContactM where
  fixtureACrossSide : Option CrossSide
  fixtureBCrossSide : Option CrossSide
  localNormal : ℚ × ℚ
  enabled : Bool
  deriving DecidableEq

/-- The 0.5 threshold of the pre-solve switch, written as mkRat 1 2 so
that concrete comparisons reduce in the kernel. -/
def crossThreshold : ℚ := mkRat 1 2

/-- Embeds the pre-solve handler registered in the Physics constructor:
only fixture A's user data is read; when its crossSide tag is present and
the local normal fails the 0.5 threshold for the configured side,
setEnabled(false) is called, otherwise the contact is untouched. -/
def preSolve (c : ContactM) : ContactM :=
  match c.fixtureACrossSide with
  | none => c
  | some side =>
    match side with
    | CrossSide.left =>
      if c.localNormal.1 < -crossThreshold then { c with enabled := false } else c
    | CrossSide.right =>
      if c.localNormal.1 > crossThreshold then { c with enabled := false } else c
    | CrossSide.top =>
      if c.localNormal.2 < -crossThreshold then { c with enabled := false } else c
    | CrossSide.bottom =>
      if c.localNormal.2 > crossThreshold then { c with enabled := false } else c

/-- The normal-direction test of the pre-solve switch for a given side. -/
def sideMismatch (side : CrossSide) (normal : ℚ × ℚ) : Prop :=
  match side with
  | CrossSide.left => normal.1 < -crossThreshold
  | CrossSide.right => normal.1 > crossThreshold
  | CrossSide.top => normal.2 < -crossThreshold
  | CrossSide.bottom => normal.2 > crossThreshold

/-- The RigidBody data reachable from a contact fixture during the drain:
body user data back-reference, destroyed flag, and the scene node's
registered listeners (target.hasListener). -/
structure RBm where
  targetId : Nat
  destroyed : Bool
  listeners : List String
  deriving DecidableEq

/-- A drained contact as read by Physics.update: the two bodies' user data
(absent when the fixture, body or binding is missing) and the manifold
local normal. -/
structure DContact where
  rbA : Option RBm
  rbB : Option RBm
  localNormal : ℚ × ℚ
  deriving DecidableEq

/-- An event emitted to a scene node by target.emit. -/
structure EventM where
  targetId : Nat
  eventName : String
  other : Option RBm
  normal : ℚ × ℚ
  deriving DecidableEq

/-- contacts[i] ? "collisionEnd" : "collisionStart" - zero is falsy. -/
def eventTypeName (t : Nat) : String :=
  if t = 0 then "collisionStart" else "collisionEnd"

/-- Embeds one iteration of the drain loop of Physics.update: each side
fires independently iff its binding exists, is not destroyed, and its node
has a listener for the event name; the payload carries the opposite
binding and the contact's local normal. Side A is emitted first. -/
def dispatchContact (t : Nat) (c : DContact) : List EventM :=
  let type := eventTypeName t
  let evA :=
    match c.rbA with
    | some a =>
      if a.destroyed = false ∧ type ∈ a.listeners then
        [⟨a.targetId, type, c.rbB, c.localNormal⟩]
      else []
    | none => []
  let evB :=
    match c.rbB with
    | some b =>
      if b.destroyed = false ∧ type ∈ b.listeners then
        [⟨b.targetId, type, c.rbA, c.localNormal⟩]
      else []
    | none => []
  evA ++ evB

/-! ## RigidBody binding model (rigidBody.ts) -/

inductive RigidType
  | static
  | kinematic
  | dynamic
  deriving DecidableEq

inductive ShapeType
  | box
  | circle
  | edge
  | polygon
  deriving DecidableEq

/-- A shape descriptor (IShape): the fields read by addShape. -/
structure IShapeM where
  shapeType : ShapeType
  width : Option ℚ
  height : Option ℚ
  offset : Option (ℚ × ℚ)
  crossSide : Option CrossSide
  points : Option (List (ℚ × ℚ))
  deriving DecidableEq

/-- The geometry handed to createFixture. -/
inductive FixShape
  | box (hw hh : ℚ) (center : ℚ × ℚ)
  | circle (center : ℚ × ℚ) (radius : ℚ)
  | edge (v1 v2 : ℚ × ℚ)
  | polygon (vertices : List (ℚ × ℚ))
  deriving DecidableEq

structure FixtureM where
  shape : FixShape
  density : ℚ
  isSensor : Bool
  filterCategoryBits : Nat
  filterMaskBits : Nat
  userData : Option CrossSide
  deriving DecidableEq

/-- The planck body state this layer reads and writes. -/
structure BodyM where
  bodyType : RigidType
  position : ℚ × ℚ
  angle : ℚ
  active : Bool
  fixedRotation : Bool
  fixtures : List FixtureM
  hasUserData : Bool
  deriving DecidableEq

/-- The owning scene node, with the externally supplied scene-graph
queries (toWorldPoint at the origin, getWorldBounds size, parent identity)
modelled as fields. toLocalPoint is modelled as subtraction of the parent's
world origin. -/
structure NodeM where
  pos : ℚ × ℚ
  rotation : ℚ
  pivot : ℚ × ℚ
  worldPos : ℚ × ℚ
  worldBounds : ℚ × ℚ
  parentIsScene : Bool
  parentOrigin : ℚ × ℚ
  destroyed : Bool
  deriving DecidableEq

/-- The RigidBody binding: configuration fields, the owned body, the owning
node, and the framework flags (attached to a running scene, awaked). -/
structure RBState where
  rigidType : RigidType
  shapes : List IShapeM
  category : String
  isSensor : Bool
  categoryAccepted : Option (List String)
  body : BodyM
  target : NodeM
  sceneAttached : Bool
  awaked : Bool
  deriving DecidableEq

/-- Modelled from the liko interface: the boundary rectangle. -/
structure RectangleM where
  x : ℚ
  y : ℚ
  width : ℚ
  height : ℚ
  deriving DecidableEq

/-- Modelled from the liko interface: Rectangle.contains as an axis-aligned
containment test. -/
def containsPoint (r : RectangleM) (px py : ℚ) : Bool :=
  decide (r.x ≤ px) && decide (px < r.x + r.width) &&
    decide (r.y ≤ py) && decide (py < r.y + r.height)

/-- Embeds Physics.inBoundaryArea: true when no boundary is configured,
else the containment test. -/
def inBoundaryArea (boundaryArea : Option RectangleM) (pos : ℚ × ℚ) : Bool :=
  match boundaryArea with
  | none => true
  | some r => containsPoint r pos.1 pos.2

/-- Modelled from the liko interface: re-expressing a scene-space point in
the parent's local space, as a translation by the parent's world origin. -/
def toLocalPoint (parentOrigin : ℚ × ℚ) (p : ℚ × ℚ) : ℚ × ℚ :=
  (p.1 - parentOrigin.1, p.2 - parentOrigin.2)

/-- Embeds RigidBody.onUpdate: static bodies return immediately; otherwise
the body position is converted to pixel space; if it is outside the
configured boundary the target is destroyed and nothing else happens;
otherwise the position (re-expressed in the parent space when the parent is
not the scene, then offset by the pivot) and rotation are written into the
node. -/
def onUpdate (boundaryArea : Option RectangleM) (rb : RBState) : RBState :=
  if rb.rigidType = RigidType.static then rb
  else
    let pos2D := to2DPos rb.body.position
    if inBoundaryArea boundaryArea pos2D = false then
      { rb with target := { rb.target with destroyed := true } }
    else
      let pos2Dp :=
        if rb.target.parentIsScene then pos2D
        else toLocalPoint rb.target.parentOrigin pos2D
      { rb with target :=
          { rb.target with
            pos := (pos2Dp.1 + rb.target.pivot.1, pos2Dp.2 + rb.target.pivot.2),
            rotation := rb.body.angle } }

/-- The fixture offset computed by addShape. The source expression
shape.offset?.x ?? 0 + target.pivot.x parses as
shape.offset?.x ?? (0 + target.pivot.x): with an explicit offset the pivot
is not added; without one the offset is the pivot. -/
def shapeLocalOffset (shape : IShapeM) (pivot : ℚ × ℚ) : ℚ × ℚ :=
  (toPhy (match shape.offset with | some o => o.1 | none => 0 + pivot.1),
   toPhy (match shape.offset with | some o => o.2 | none => 0 + pivot.2))

/-- Embeds RigidBody.addShape. Before activation the descriptor is only
buffered. After activation the filter bits are computed through the
category registry, lengths fall back to the node's world bounds, offsets
come from shapeLocalOffset, and the fixture is created with density 1, the
binding's sensor flag and, when the descriptor has a crossSide tag, that
tag as fixture user data. -/
def addShape (rb : RBState) (cat : CatState) (shape : IShapeM) : RBState × CatState :=
  if rb.awaked = false then
    ({ rb with shapes := rb.shapes ++ [shape] }, cat)
  else
    let bitR := getCategoryBit (some rb.category) cat
    let maskR := getCategoryMask rb.categoryAccepted bitR.2
    let width := match shape.width with | some w => w | none => rb.target.worldBounds.1
    let height := match shape.height with | some h => h | none => rb.target.worldBounds.2
    let off := shapeLocalOffset shape rb.target.pivot
    let fs :=
      match shape.shapeType with
      | ShapeType.box =>
        FixShape.box (toPhy width / 2) (toPhy height / 2)
          (toPhy width / 2 + off.1, toPhy height / 2 + off.2)
      | ShapeType.circle => FixShape.circle off (toPhy width)
      | ShapeType.edge => FixShape.edge off (off.1 + toPhy width, off.2)
      | ShapeType.polygon =>
        FixShape.polygon ((match shape.points with | some ps => ps | none => []).map toPhyPos)
    let fixture : FixtureM :=
      { shape := fs, density := 1, isSensor := rb.isSensor,
        filterCategoryBits := bitR.1, filterMaskBits := maskR.1,
        userData := shape.crossSide }
    ({ rb with body := { rb.body with fixtures := rb.body.fixtures ++ [fixture] } }, maskR.2)

/-- addShape folded over a shape list, threading binding and registry. -/
def addShapeList : RBState → CatState → List IShapeM → RBState × CatState
  | rb, cat, [] => (rb, cat)
  | rb, cat, sh :: rest =>
    let r := addShape rb cat sh
    addShapeList r.1 r.2 rest

/-- The default descriptor used when no shapes are configured:
addShape({ shapeType: "box" }). -/
def defaultBoxShape : IShapeM := ⟨ShapeType.box, none, none, none, none, none⟩

/-- Embeds RigidBody.onAwake. A binding not attached to a running scene
throws before any body configuration (the error message is returned and
both the binding and the registry are returned unchanged). Otherwise the
body type is set from rigidType (kinematic stays as created), the buffered
shapes (or the default box) are realized, and the world position, rotation,
active flag and user-data back-reference are written. The awaked flag is
set by the hosting script framework before onAwake runs. -/
def onAwake (rb : RBState) (cat : CatState) : Option String × RBState × CatState :=
  if rb.sceneAttached = false then
    (some ("Please add to a scene first"), rb, cat)
  else
    let body1 :=
      if rb.rigidType = RigidType.dynamic then { rb.body with bodyType := RigidType.dynamic }
      else if rb.rigidType = RigidType.static then { rb.body with bodyType := RigidType.static }
      else rb.body
    let rb1 := { rb with body := body1, awaked := true }
    let rc :=
      if rb1.shapes.length ≠ 0 then addShapeList rb1 cat rb1.shapes
      else addShape rb1 cat defaultBoxShape
    let rb2 := rc.1
    let rb3 :=
      { rb2 with body :=
          { rb2.body with
            position := toPhyPos rb2.target.worldPos,
            angle := rb2.target.rotation,
            active := true,
            hasUserData := true } }
    (none, rb3, rc.2)

/-- A body as created by the field initializer of RigidBody:
createBody({ active: false, type: "kinematic", fixedRotation: true }). -/
def initialBody : BodyM :=
  ⟨RigidType.kinematic, (0, 0), 0, false, true, [], false⟩

/-- A concrete node used by the witnesses. -/
def sampleNode : NodeM :=
  ⟨(0, 0), 0, (0, 0), (0, 0), (1, 1), true, (0, 0), false⟩

/-- A concrete unattached binding used by the witnesses. -/
def sampleRB : RBState :=
  ⟨RigidType.dynamic, [], "", false, none, initialBody, sampleNode, false, false⟩

lemma to2D_toPhy (v : ℚ) : to2D (toPhy v) = v := by
  unfold to2D toPhy pixelRatio
  rw [div_mul_cancel₀]
  norm_num

lemma toPhy_to2D (v : ℚ) : toPhy (to2D v) = v := by
  unfold to2D toPhy pixelRatio
  rw [mul_div_cancel_right₀]
  norm_num

/-! ### Registry lemmas -/

lemma getCategoryBit_none (s : CatState) : getCategoryBit none s = (1, s) := rfl

lemma getCategoryBit_empty (s : CatState) : getCategoryBit (some "") s = (1, s) := by
  simp [getCategoryBit]

/-- A nonzero cached bit is returned as-is with the state untouched. -/
lemma getCategoryBit_cached {s : CatState} {c : String} {v : Nat} (hc : c ≠ "")
    (hv : lookupCat s.categoryMap c = v) (hne : v ≠ 0) :
    getCategoryBit (some c) s = (v, s) := by
  simp [getCategoryBit, hc, hv, hne]

/-- A fresh name is assigned the next power of two and the counter advances. -/
lemma getCategoryBit_fresh {s : CatState} {c : String} (hc : c ≠ "")
    (hz : lookupCat s.categoryMap c = 0) :
    getCategoryBit (some c) s
      = (2 ^ s.count, ⟨s.count + 1, (c, 2 ^ s.count) :: s.categoryMap⟩) := by
  simp [getCategoryBit, hc, hz]

/-- getCategoryBit never erases or changes an existing nonzero entry. -/
lemma lookupCat_getCategoryBit_preserved {s : CatState} {n : String} {v : Nat}
    (hv : lookupCat s.categoryMap n = v) (hne : v ≠ 0) (c : Option String) :
    lookupCat (getCategoryBit c s).2.categoryMap n = v := by
  match c with
  | none => simpa [getCategoryBit] using hv
  | some c =>
    by_cases hc : c = ""
    · simpa [getCategoryBit, hc] using hv
    · by_cases hz : lookupCat s.categoryMap c = 0
      · have hcn : c ≠ n := by
          intro h
          subst h
          rw [hv] at hz
          exact hne hz
        simp [getCategoryBit, hc, hz, lookupCat, hcn, hv]
      · simpa [getCategoryBit, hc, hz] using hv

/-- A nonzero entry survives any further sequence of getCategoryBit calls. -/
lemma lookupCat_runCalls_preserved {s : CatState} {n : String} {v : Nat}
    (hv : lookupCat s.categoryMap n = v) (hne : v ≠ 0) :
    ∀ calls : List (Option String), lookupCat (runCalls calls s).categoryMap n = v := by
  intro calls
  induction calls generalizing s with
  | nil => simpa [runCalls] using hv
  | cons c t ih =>
    simp only [runCalls]
    exact ih (lookupCat_getCategoryBit_preserved hv hne c)

lemma catInv_init : CatInv initCatState := by
  refine ⟨le_refl 1, ?_, ?_⟩ <;> simp [initCatState]

lemma catInv_values_ne_zero {s : CatState} (h : CatInv s) :
    ∀ p ∈ s.categoryMap, p.2 ≠ 0 := by
  intro p hp
  have hmem : p.2 ∈ s.categoryMap.map Prod.snd := List.mem_map_of_mem Prod.snd hp
  rw [h.2.1] at hmem
  rw [List.mem_reverse, List.mem_map] at hmem
  obtain ⟨k, _, hk⟩ := hmem
  rw [← hk]
  exact pow_ne_zero k (by norm_num)

lemma lookupCat_eq_zero_of_not_mem {m : List (String × Nat)} {c : String}
    (h : c ∉ m.map Prod.fst) : lookupCat m c = 0 := by
  induction m with
  | nil => rfl
  | cons p t ih =>
    obtain ⟨k, v⟩ := p
    simp only [List.map_cons, List.mem_cons, not_or] at h
    have hne : k ≠ c := fun hh => h.1 hh.symm
    simp [lookupCat, hne, ih h.2]

lemma not_mem_of_lookupCat_eq_zero {m : List (String × Nat)} {c : String}
    (hvals : ∀ p ∈ m, p.2 ≠ 0) (h : lookupCat m c = 0) : c ∉ m.map Prod.fst := by
  induction m with
  | nil => simp
  | cons p t ih =>
    obtain ⟨k, v⟩ := p
    simp only [lookupCat] at h
    by_cases hpc : k = c
    · rw [if_pos hpc] at h
      exact absurd h (hvals (k, v) (List.mem_cons_self (k, v) t))
    · rw [if_neg hpc] at h
      simp only [List.map_cons, List.mem_cons, not_or]
      exact ⟨fun hh => hpc hh.symm, ih (fun q hq => hvals q (List.mem_cons_of_mem (k, v) hq)) h⟩

/-- Every getCategoryBit call preserves the registry invariant. -/
lemma catInv_getCategoryBit {s : CatState} (h : CatInv s) (c : Option String) :
    CatInv (getCategoryBit c s).2 := by
  match c with
  | none => rw [getCategoryBit_none]; exact h
  | some c =>
    by_cases hc : c = ""
    · subst hc
      rw [getCategoryBit_empty]
      exact h
    · by_cases hz : lookupCat s.categoryMap c = 0
      · have hnotmem : c ∉ s.categoryMap.map Prod.fst :=
          not_mem_of_lookupCat_eq_zero (catInv_values_ne_zero h) hz
        rw [getCategoryBit_fresh hc hz]
        have hcount : 1 ≤ s.count := h.1
        refine ⟨Nat.le_succ_of_le h.1, ?_, ?_⟩
        · simp only [List.map_cons, h.2.1]
          have hcnt : s.count + 1 - 1 = (s.count - 1) + 1 := by omega
          rw [hcnt, List.range'_1_concat, List.map_append, List.reverse_append]
          have h1 : 1 + (s.count - 1) = s.count := by omega
          simp [h1]
        · simp only [List.map_cons, List.nodup_cons]
          exact ⟨hnotmem, h.2.2⟩
      · rw [getCategoryBit_cached hc rfl hz]
        exact h

/-- The registry invariant holds after any sequence of calls from the
initial state. -/
lemma catInv_runCalls (calls : List (Option String)) (s : CatState) (h : CatInv s) :
    CatInv (runCalls calls s) := by
  induction calls generalizing s with
  | nil => simpa [runCalls] using h
  | cons c t ih =>
    simp only [runCalls]
    exact ih _ (catInv_getCategoryBit h c)

lemma stable_getCategoryBit {n : String} {b : Nat} {s : CatState} (h : Stable n b s) :
    getCategoryBit (some n) s = (b, s) := by
  rcases h with ⟨he, hb⟩ | ⟨hne, hv, hnz⟩
  · subst he hb
    exact getCategoryBit_empty s
  · exact getCategoryBit_cached hne hv hnz

lemma stable_preserved {n : String} {b : Nat} {s : CatState} (h : Stable n b s)
    (c : Option String) : Stable n b (getCategoryBit c s).2 := by
  rcases h with ⟨he, hb⟩ | ⟨hne, hv, hnz⟩
  · exact Or.inl ⟨he, hb⟩
  · exact Or.inr ⟨hne, lookupCat_getCategoryBit_preserved hv hnz c, hnz⟩

lemma stable_runCalls {n : String} {b : Nat} {s : CatState} (calls : List (Option String))
    (h : Stable n b s) : Stable n b (runCalls calls s) := by
  induction calls generalizing s with
  | nil => exact h
  | cons c t ih =>
    simp only [runCalls]
    exact ih (stable_preserved h c)

/-- The first call with a name makes that name stable at the returned bit. -/
lemma stable_after_getCategoryBit (n : String) (s : CatState) :
    Stable n (getCategoryBit (some n) s).1 (getCategoryBit (some n) s).2 := by
  by_cases hc : n = ""
  · subst hc
    rw [getCategoryBit_empty]
    exact Or.inl ⟨rfl, rfl⟩
  · by_cases hz : lookupCat s.categoryMap n = 0
    · rw [getCategoryBit_fresh hc hz]
      refine Or.inr ⟨hc, ?_, pow_ne_zero s.count (by norm_num)⟩
      simp [lookupCat]
    · rw [getCategoryBit_cached hc rfl hz]
      exact Or.inr ⟨hc, rfl, hz⟩

/-! ### Claim theorems for the converter and the registry -/

/-- C5: the pixel-to-simulation and simulation-to-pixel conversions are
mutually inverse, exactly, over the rationals, and likewise componentwise
for the point-valued variants. -/
theorem conversions_mutually_inverse :
    (∀ v : ℚ, to2D (toPhy v) = v) ∧ (∀ v : ℚ, toPhy (to2D v) = v) ∧
    (∀ p : ℚ × ℚ, to2DPos (toPhyPos p) = p) ∧ (∀ p : ℚ × ℚ, toPhyPos (to2DPos p) = p) := by
  refine ⟨to2D_toPhy, toPhy_to2D, ?_, ?_⟩
  · intro p
    unfold to2DPos toPhyPos pixelRatio
    refine Prod.ext ?_ ?_ <;>
      · simp only []
        rw [div_mul_cancel₀]
        norm_num
  · intro p
    unfold to2DPos toPhyPos pixelRatio
    refine Prod.ext ?_ ?_ <;>
      · simp only []
        rw [mul_div_cancel_right₀]
        norm_num

/-- C6: getCategoryBit returns 1 for an absent or empty name; once a name
has been assigned a bit, every later call with that name, after any
interleaving of other calls, returns the same bit and leaves the registry
unchanged; and along any call sequence from the initial state the distinct
names receive, in order of first use, exactly the distinct powers of two
2, 4, 8, ... allocated monotonically. -/
theorem getCategoryBit_spec :
    (∀ s, getCategoryBit none s = (1, s)) ∧
    (∀ s, getCategoryBit (some ("")) s = (1, s)) ∧
    (∀ s c calls,
      getCategoryBit (some c) (runCalls calls (getCategoryBit (some c) s).2)
        = ((getCategoryBit (some c) s).1, runCalls calls (getCategoryBit (some c) s).2)) ∧
    (∀ calls,
      ((runCalls calls initCatState).categoryMap.map Prod.snd).reverse
        = (List.range' 1 ((runCalls calls initCatState).count - 1)).map (fun k => 2 ^ k) ∧
      ((runCalls calls initCatState).categoryMap.map Prod.fst).Nodup) := by
  refine ⟨getCategoryBit_none, getCategoryBit_empty, ?_, ?_⟩
  · intro s c calls
    exact stable_getCategoryBit (stable_runCalls calls (stable_after_getCategoryBit c s))
  · intro calls
    have h := catInv_runCalls calls initCatState catInv_init
    refine ⟨?_, h.2.2⟩
    rw [h.2.1, List.reverse_reverse]

/-! ### Mask independence machinery -/

lemma or_left_comm (a b c : Nat) : a ||| (b ||| c) = b ||| (a ||| c) := by
  rw [← Nat.or_assoc, Nat.or_comm a b, Nat.or_assoc]

lemma or_idem_left (a b : Nat) : a ||| (a ||| b) = a ||| b := by
  rw [← Nat.or_assoc, Nat.or_self]

lemma or_or_or_self (a b M : Nat) : (a ||| b) ||| M = (a ||| M) ||| (b ||| M) := by
  simp [Nat.or_assoc, Nat.or_comm, or_left_comm, or_idem_left, Nat.or_self]

/-- The accumulator loop of getCategoryMask computes the right-nested OR. -/
lemma maskFold_eq_maskOr (l : List String) (num : Nat) (s : CatState) :
    maskFold l num s = (num ||| (maskOr l s).1, (maskOr l s).2) := by
  induction l generalizing num s with
  | nil => simp [maskFold, maskOr]
  | cons n t ih =>
    simp only [maskFold, maskOr]
    rw [ih]
    rw [Nat.or_assoc]

lemma maskOr_congr (M : Nat) (l : List String) :
    ∀ s₁ s₂, StateSim M s₁ s₂ →
      (maskOr l s₁).1 ||| M = (maskOr l s₂).1 ||| M ∧
      StateSim M (maskOr l s₁).2 (maskOr l s₂).2 := by
  induction l with
  | nil => intro s₁ s₂ h; exact ⟨rfl, h⟩
  | cons n t ih =>
    intro s₁ s₂ h
    by_cases hc : n = ""
    · subst hc
      simp only [maskOr, getCategoryBit_empty]
      obtain ⟨hv, hs⟩ := ih s₁ s₂ h
      constructor
      · rw [Nat.or_assoc, Nat.or_assoc, hv]
      · exact hs
    · by_cases hz : lookupCat s₁.categoryMap n = 0
      · have hz₂ : lookupCat s₂.categoryMap n = 0 := (h.2 n).1.mp hz
        have hsim : StateSim M
            ⟨s₁.count + 1, (n, 2 ^ s₁.count) :: s₁.categoryMap⟩
            ⟨s₂.count + 1, (n, 2 ^ s₂.count) :: s₂.categoryMap⟩ := by
          refine ⟨by rw [h.1], ?_⟩
          intro m
          by_cases hm : n = m
          · subst hm
            simp [lookupCat, h.1, pow_ne_zero s₂.count (by norm_num : (2:ℕ) ≠ 0)]
          · simp only [lookupCat, if_neg hm]
            exact h.2 m
        simp only [maskOr, getCategoryBit_fresh hc hz, getCategoryBit_fresh hc hz₂]
        obtain ⟨hv, hs⟩ := ih _ _ hsim
        refine ⟨?_, hs⟩
        rw [Nat.or_assoc, Nat.or_assoc, hv, h.1]
      · have hz₂ : lookupCat s₂.categoryMap n ≠ 0 := fun hh => hz ((h.2 n).1.mpr hh)
        simp only [maskOr, getCategoryBit_cached hc rfl hz,
          getCategoryBit_cached hc rfl hz₂]
        obtain ⟨hv, hs⟩ := ih s₁ s₂ h
        refine ⟨?_, hs⟩
        rw [Nat.or_assoc, Nat.or_assoc, hv, or_left_comm (lookupCat s₁.categoryMap n),
          or_left_comm (lookupCat s₂.categoryMap n), (h.2 n).2]

/-- A call that modifies the state must have been a fresh nonempty name. -/
lemma state_changed {n : String} {s : CatState}
    (h : (getCategoryBit (some n) s).2 ≠ s) :
    n ≠ "" ∧ lookupCat s.categoryMap n = 0 := by
  by_cases hc : n = ""
  · subst hc
    rw [getCategoryBit_empty] at h
    exact absurd rfl h
  · by_cases hz : lookupCat s.categoryMap n = 0
    · exact ⟨hc, hz⟩
    · rw [getCategoryBit_cached hc rfl hz] at h
      exact absurd rfl h

lemma getCategoryBit_pair (c : Option String) (s : CatState) :
    getCategoryBit c s = ((getCategoryBit c s).1, (getCategoryBit c s).2) := rfl

lemma maskOr_cons_eq {n : String} {s : CatState} {b : Nat} {s₂ : CatState}
    (h : getCategoryBit (some n) s = (b, s₂)) (t : List String) :
    maskOr (n :: t) s = (b ||| (maskOr t s₂).1, (maskOr t s₂).2) := by
  simp only [maskOr, h]

/-- Swapping the first two names never changes the computed mask value. -/
lemma maskOr_swap (x y : String) (l : List String) (s : CatState) :
    (maskOr (x :: y :: l) s).1 = (maskOr (y :: x :: l) s).1 := by
  by_cases hxy : x = y
  · subst hxy; rfl
  by_cases hx : (getCategoryBit (some x) s).2 = s
  · have hsx : Stable x (getCategoryBit (some x) s).1 s := by
      have h := stable_after_getCategoryBit x s
      rwa [hx] at h
    have hx1 : getCategoryBit (some x) s = ((getCategoryBit (some x) s).1, s) := by
      rw [getCategoryBit_pair, hx]
    have hx2 : getCategoryBit (some x) (getCategoryBit (some y) s).2
        = ((getCategoryBit (some x) s).1, (getCategoryBit (some y) s).2) :=
      stable_getCategoryBit (stable_preserved hsx (some y))
    rw [maskOr_cons_eq hx1 (y :: l), maskOr_cons_eq (getCategoryBit_pair (some y) s) (x :: l)]
    dsimp only
    rw [maskOr_cons_eq (getCategoryBit_pair (some y) s) l, maskOr_cons_eq hx2 l]
    dsimp only
    rw [or_left_comm]
  · by_cases hy : (getCategoryBit (some y) s).2 = s
    · have hsy : Stable y (getCategoryBit (some y) s).1 s := by
        have h := stable_after_getCategoryBit y s
        rwa [hy] at h
      have hy1 : getCategoryBit (some y) s = ((getCategoryBit (some y) s).1, s) := by
        rw [getCategoryBit_pair, hy]
      have hy2 : getCategoryBit (some y) (getCategoryBit (some x) s).2
          = ((getCategoryBit (some y) s).1, (getCategoryBit (some x) s).2) :=
        stable_getCategoryBit (stable_preserved hsy (some x))
      rw [maskOr_cons_eq (getCategoryBit_pair (some x) s) (y :: l), maskOr_cons_eq hy1 (x :: l)]
      dsimp only
      rw [maskOr_cons_eq hy2 l, maskOr_cons_eq (getCategoryBit_pair (some x) s) l]
      dsimp only
      rw [or_left_comm]
    · obtain ⟨hxc, hxz⟩ := state_changed hx
      obtain ⟨hyc, hyz⟩ := state_changed hy
      have hyx : lookupCat ((x, 2 ^ s.count) :: s.categoryMap) y = 0 := by
        simp only [lookupCat]
        rw [if_neg (fun h : x = y => hxy h)]
        exact hyz
      have hxy2 : lookupCat ((y, 2 ^ s.count) :: s.categoryMap) x = 0 := by
        simp only [lookupCat]
        rw [if_neg (fun h : y = x => hxy h.symm)]
        exact hxz
      have hx1 : getCategoryBit (some x) s
          = (2 ^ s.count, ⟨s.count + 1, (x, 2 ^ s.count) :: s.categoryMap⟩) :=
        getCategoryBit_fresh hxc hxz
      have hy1 : getCategoryBit (some y) s
          = (2 ^ s.count, ⟨s.count + 1, (y, 2 ^ s.count) :: s.categoryMap⟩) :=
        getCategoryBit_fresh hyc hyz
      have hy2 : getCategoryBit (some y)
            (⟨s.count + 1, (x, 2 ^ s.count) :: s.categoryMap⟩ : CatState)
          = (2 ^ (s.count + 1),
             ⟨s.count + 1 + 1, (y, 2 ^ (s.count + 1)) :: (x, 2 ^ s.count) :: s.categoryMap⟩) :=
        getCategoryBit_fresh hyc hyx
      have hx2 : getCategoryBit (some x)
            (⟨s.count + 1, (y, 2 ^ s.count) :: s.categoryMap⟩ : CatState)
          = (2 ^ (s.count + 1),
             ⟨s.count + 1 + 1, (x, 2 ^ (s.count + 1)) :: (y, 2 ^ s.count) :: s.categoryMap⟩) :=
        getCategoryBit_fresh hxc hxy2
      rw [maskOr_cons_eq hx1 (y :: l), maskOr_cons_eq hy1 (x :: l)]
      dsimp only
      rw [maskOr_cons_eq hy2 l, maskOr_cons_eq hx2 l]
      dsimp only
      have hsim : StateSim (2 ^ s.count ||| 2 ^ (s.count + 1))
          ⟨s.count + 1 + 1, (y, 2 ^ (s.count + 1)) :: (x, 2 ^ s.count) :: s.categoryMap⟩
          ⟨s.count + 1 + 1, (x, 2 ^ (s.count + 1)) :: (y, 2 ^ s.count) :: s.categoryMap⟩ := by
        refine ⟨rfl, ?_⟩
        intro m
        simp only [lookupCat]
        by_cases hym : y = m
        · have hxm : ¬x = m := fun h => hxy (h.trans hym.symm)
          rw [if_pos hym, if_neg hxm, if_pos hym]
          constructor
          · exact iff_of_false (pow_ne_zero _ (by norm_num)) (pow_ne_zero _ (by norm_num))
          · rw [or_left_comm (2 ^ (s.count + 1)), Nat.or_self, or_idem_left]
        · by_cases hxm : x = m
          · rw [if_neg hym, if_pos hxm, if_pos hxm]
            constructor
            · exact iff_of_false (pow_ne_zero _ (by norm_num)) (pow_ne_zero _ (by norm_num))
            · rw [or_idem_left, or_left_comm (2 ^ (s.count + 1)), Nat.or_self]
          · rw [if_neg hym, if_neg hxm, if_neg hxm, if_neg hym]
            exact ⟨Iff.rfl, rfl⟩
      obtain ⟨hv, _⟩ := maskOr_congr (2 ^ s.count ||| 2 ^ (s.count + 1)) l _ _ hsim
      rw [← Nat.or_assoc, ← Nat.or_assoc]
      rw [Nat.or_comm (2 ^ s.count ||| 2 ^ (s.count + 1))]
      rw [Nat.or_comm (2 ^ s.count ||| 2 ^ (s.count + 1))]
      exact hv

/-- Permuting the name list never changes the computed mask value. -/
lemma maskOr_perm {l₁ l₂ : List String} (hp : l₁.Perm l₂) :
    ∀ s, (maskOr l₁ s).1 = (maskOr l₂ s).1 := by
  induction hp with
  | nil => intro _; rfl
  | cons x _ ih =>
    intro s
    simp only [maskOr]
    rw [ih]
  | swap x y l =>
    intro s
    exact maskOr_swap y x l s
  | trans _ _ ih₁ ih₂ =>
    intro s
    exact (ih₁ s).trans (ih₂ s)

/-- Appending a name that was already stable adds only an absorbed bit. -/
lemma maskOr_append_stable {n : String} {b : Nat} {s : CatState}
    (hstable : Stable n b s) (t : List String) :
    (maskOr (t ++ [n]) s).1 = (maskOr t s).1 ||| b := by
  induction t generalizing s with
  | nil =>
    rw [List.nil_append, maskOr_cons_eq (stable_getCategoryBit hstable) []]
    dsimp only [maskOr]
    rw [Nat.or_zero, Nat.zero_or]
  | cons a t ih =>
    rw [List.cons_append, maskOr_cons_eq (getCategoryBit_pair (some a) s) (t ++ [n]),
      maskOr_cons_eq (getCategoryBit_pair (some a) s) t]
    dsimp only
    rw [ih (stable_preserved hstable (some a)), Nat.or_assoc]

/-- Appending a duplicate of a name already in the list never changes the
computed mask value. -/
lemma maskOr_append_dup {n : String} {l : List String} (hmem : n ∈ l) (s : CatState) :
    (maskOr (l ++ [n]) s).1 = (maskOr l s).1 := by
  induction l generalizing s with
  | nil => cases hmem
  | cons a t ih =>
    rcases List.mem_cons.mp hmem with hna | hnt
    · subst hna
      rw [List.cons_append, maskOr_cons_eq (getCategoryBit_pair (some n) s) (t ++ [n]),
        maskOr_cons_eq (getCategoryBit_pair (some n) s) t]
      dsimp only
      rw [maskOr_append_stable (stable_after_getCategoryBit n s) t]
      rw [Nat.or_comm ((maskOr t (getCategoryBit (some n) s).2).1), or_idem_left]
    · rw [List.cons_append, maskOr_cons_eq (getCategoryBit_pair (some a) s) (t ++ [n]),
        maskOr_cons_eq (getCategoryBit_pair (some a) s) t]
      dsimp only
      rw [ih hnt]

/-- C7: getCategoryMask returns 65535 for an absent or empty list and
otherwise the bitwise OR of getCategoryBit over every listed name; the
resulting value is unchanged under permutations of the list and under
appending duplicate names. -/
theorem getCategoryMask_spec :
    (∀ s, getCategoryMask none s = (65535, s)) ∧
    (∀ s, getCategoryMask (some []) s = (65535, s)) ∧
    (∀ s l, l ≠ [] → getCategoryMask (some l) s = maskOr l s) ∧
    (∀ s (l₁ l₂ : List String), l₁.Perm l₂ → (maskOr l₁ s).1 = (maskOr l₂ s).1) ∧
    (∀ s (l : List String) n, n ∈ l → (maskOr (l ++ [n]) s).1 = (maskOr l s).1) := by
  refine ⟨fun s => rfl, fun s => rfl, ?_, fun s l₁ l₂ hp => maskOr_perm hp s,
    fun s l n hmem => maskOr_append_dup hmem s⟩
  intro s l hne
  simp only [getCategoryMask, List.length_eq_zero]
  rw [if_neg hne, maskFold_eq_maskOr]
  simp [getCategoryBit_pair]

/-- Witness for C7 at concrete inputs. -/
theorem getCategoryMask_spec_witness :
    getCategoryMask (some (["a", "b"])) initCatState = maskOr (["a", "b"]) initCatState ∧
    (maskOr (["a", "b"]) initCatState).1 = (maskOr (["b", "a"]) initCatState).1 ∧
    (maskOr (["a", "b"] ++ [("a" : String)]) initCatState).1
      = (maskOr (["a", "b"]) initCatState).1 :=
  ⟨getCategoryMask_spec.2.2.1 initCatState (["a", "b"]) (by decide),
   getCategoryMask_spec.2.2.2.1 initCatState (["a", "b"]) (["b", "a"]) (by decide),
   getCategoryMask_spec.2.2.2.2 initCatState (["a", "b"]) ("a") (by decide)⟩

/-- The threshold used by the pre-solve handler is the 0.5 of the source. -/
lemma crossThreshold_eq_half : crossThreshold = 0.5 := by
  unfold crossThreshold
  norm_num [mkRat, Rat.normalize]

/-! ### Claim theorems for the contact dispatcher -/

/-- C2: a begin-contact entry whose two fixtures resolve to two live
bindings that both listen for collisionStart emits exactly two events, one
per side, each carrying the opposite binding and the local normal; each
side fires independently of the other side's listener, destruction or
absence. -/
theorem beginContact_events_spec :
    (∀ (c : DContact) (a b : RBm), c.rbA = some a → c.rbB = some b →
      a.destroyed = false → b.destroyed = false →
      ("collisionStart") ∈ a.listeners → ("collisionStart") ∈ b.listeners →
      dispatchContact 0 c
        = [⟨a.targetId, ("collisionStart"), some b, c.localNormal⟩,
           ⟨b.targetId, ("collisionStart"), some a, c.localNormal⟩]) ∧
    (∀ (c : DContact) (a : RBm), c.rbA = some a → a.destroyed = false →
      ("collisionStart") ∈ a.listeners →
      (⟨a.targetId, ("collisionStart"), c.rbB, c.localNormal⟩ : EventM) ∈ dispatchContact 0 c) ∧
    (∀ (c : DContact) (b : RBm), c.rbB = some b → b.destroyed = false →
      ("collisionStart") ∈ b.listeners →
      (⟨b.targetId, ("collisionStart"), c.rbA, c.localNormal⟩ : EventM) ∈ dispatchContact 0 c) := by
  refine ⟨?_, ?_, ?_⟩
  · intro c a b ha hb hda hdb hla hlb
    simp [dispatchContact, eventTypeName, ha, hb, hda, hdb, hla, hlb]
  · intro c a ha hda hla
    simp [dispatchContact, eventTypeName, ha, hda, hla]
  · intro c b hb hdb hlb
    simp [dispatchContact, eventTypeName, hb, hdb, hlb]

/-- Witness for C2 on a concrete begin contact with two listening sides. -/
theorem beginContact_events_spec_witness :
    dispatchContact 0
        ⟨some ⟨1, false, [("collisionStart")]⟩, some ⟨2, false, [("collisionStart")]⟩, (0, 1)⟩
      = [⟨1, ("collisionStart"), some ⟨2, false, [("collisionStart")]⟩, (0, 1)⟩,
         ⟨2, ("collisionStart"), some ⟨1, false, [("collisionStart")]⟩, (0, 1)⟩] :=
  beginContact_events_spec.1 _ _ _ rfl rfl rfl rfl
    (List.mem_singleton.mpr rfl) (List.mem_singleton.mpr rfl)

/-- C1 counterexample: a contact whose fixture B alone carries a top tag
with a mismatching normal (y = -1 < -0.5) is not disabled by the pre-solve
handler, because only fixture A's user data is inspected. -/
theorem preSolve_fixtureB_ignored :
    ((⟨none, some CrossSide.top, ((0 : ℚ), (-1 : ℚ)), true⟩ : ContactM).fixtureBCrossSide
        = some CrossSide.top ∧
      sideMismatch CrossSide.top
        (⟨none, some CrossSide.top, ((0 : ℚ), (-1 : ℚ)), true⟩ : ContactM).localNormal) ∧
    (preSolve ⟨none, some CrossSide.top, ((0 : ℚ), (-1 : ℚ)), true⟩).enabled = true := by
  refine ⟨⟨rfl, ?_⟩, rfl⟩
  show ((0 : ℚ), (-1 : ℚ)).2 < -crossThreshold
  decide

/-- C1 (amended): the pre-solve handler inspects only fixture A's user
data; when fixture A carries a crossSide tag and the local normal
mismatches the configured side within the 0.5 threshold the contact is
disabled (and nothing else on it changes, in particular the fixtures are
kept); in every other case, including a tag carried only by fixture B, the
contact is returned untouched. -/
theorem preSolve_spec :
    (∀ (c : ContactM) (side : CrossSide), c.fixtureACrossSide = some side →
      sideMismatch side c.localNormal →
      preSolve c = { c with enabled := false }) ∧
    (∀ c : ContactM, c.fixtureACrossSide = none → preSolve c = c) ∧
    (∀ (c : ContactM) (side : CrossSide), c.fixtureACrossSide = some side →
      ¬sideMismatch side c.localNormal → preSolve c = c) := by
  refine ⟨?_, ?_, ?_⟩
  · intro c side ha hm
    unfold preSolve
    rw [ha]
    cases side <;> (simp only [sideMismatch] at hm; simp [hm])
  · intro c ha
    unfold preSolve
    rw [ha]
  · intro c side ha hm
    unfold preSolve
    rw [ha]
    cases side <;> (simp only [sideMismatch] at hm; simp [hm])

/-- Witness for C1 on concrete contacts: a mismatching top normal disables
the contact; an absent tag and a matching normal leave it untouched. -/
theorem preSolve_spec_witness :
    preSolve ⟨some CrossSide.top, none, ((0 : ℚ), (-1 : ℚ)), true⟩
      = { (⟨some CrossSide.top, none, ((0 : ℚ), (-1 : ℚ)), true⟩ : ContactM) with
          enabled := false } ∧
    preSolve ⟨none, none, ((0 : ℚ), (1 : ℚ)), true⟩
      = ⟨none, none, ((0 : ℚ), (1 : ℚ)), true⟩ ∧
    preSolve ⟨some CrossSide.top, none, ((0 : ℚ), (1 : ℚ)), true⟩
      = ⟨some CrossSide.top, none, ((0 : ℚ), (1 : ℚ)), true⟩ :=
  ⟨preSolve_spec.1 _ CrossSide.top rfl
     (by show ((0 : ℚ), (-1 : ℚ)).2 < -crossThreshold; decide),
   preSolve_spec.2.1 _ rfl,
   preSolve_spec.2.2 _ CrossSide.top rfl
     (by show ¬((0 : ℚ), (1 : ℚ)).2 < -crossThreshold; decide)⟩

/-! ### Claim theorems for the RigidBody binding -/

/-- C9: the per-frame update of a static binding leaves everything
unchanged: the node position and rotation are never written and the node is
never destroyed, whatever the body position or boundary configuration. -/
theorem onUpdate_static_spec :
    ∀ (boundaryArea : Option RectangleM) (rb : RBState),
      rb.rigidType = RigidType.static → onUpdate boundaryArea rb = rb := by
  intro b rb h
  unfold onUpdate
  rw [if_pos h]

/-- Witness for C9 on a concrete static binding. -/
theorem onUpdate_static_spec_witness :
    onUpdate (some ⟨0, 0, 100, 100⟩) { sampleRB with rigidType := RigidType.static }
      = { sampleRB with rigidType := RigidType.static } :=
  onUpdate_static_spec (some ⟨0, 0, 100, 100⟩) _ rfl

/-- C4: for a non-static binding, when a boundary area is configured and
the body position converted to pixels is outside it, the node is destroyed
and its position and rotation are left unwritten; when the converted
position is inside, the node is not destroyed by this update; when no
boundary is configured, the node is never destroyed by this update. -/
theorem onUpdate_boundary_spec :
    ∀ (boundaryArea : Option RectangleM) (rb : RBState),
      rb.rigidType ≠ RigidType.static →
      ((∀ r, boundaryArea = some r →
          containsPoint r (to2DPos rb.body.position).1 (to2DPos rb.body.position).2 = false →
          (onUpdate boundaryArea rb).target.destroyed = true ∧
          (onUpdate boundaryArea rb).target.pos = rb.target.pos ∧
          (onUpdate boundaryArea rb).target.rotation = rb.target.rotation) ∧
        (∀ r, boundaryArea = some r →
          containsPoint r (to2DPos rb.body.position).1 (to2DPos rb.body.position).2 = true →
          (onUpdate boundaryArea rb).target.destroyed = rb.target.destroyed) ∧
        (boundaryArea = none →
          (onUpdate boundaryArea rb).target.destroyed = rb.target.destroyed)) := by
  intro b rb h
  refine ⟨?_, ?_, ?_⟩
  · intro r hb hc
    subst hb
    unfold onUpdate
    rw [if_neg h]
    simp only [inBoundaryArea, hc]
    exact ⟨rfl, rfl, rfl⟩
  · intro r hb hc
    subst hb
    unfold onUpdate
    rw [if_neg h]
    simp only [inBoundaryArea, hc]
    rfl
  · intro hb
    subst hb
    unfold onUpdate
    rw [if_neg h]
    simp only [inBoundaryArea]
    rfl

/-- Witness for C4: a body at (10, 10) meters converts to (500, 500)
pixels, outside the 100 by 100 boundary, so the node is destroyed with the
transform unwritten; a body at (1, 1) converts to (50, 50), inside, and
survives; with no boundary the node always survives. -/
theorem onUpdate_boundary_spec_witness :
    ((onUpdate (some ⟨0, 0, 100, 100⟩)
        { sampleRB with body := { initialBody with position := (10, 10) } }).target.destroyed
        = true ∧
      (onUpdate (some ⟨0, 0, 100, 100⟩)
        { sampleRB with body := { initialBody with position := (10, 10) } }).target.pos
        = ({ sampleRB with
            body := { initialBody with position := (10, 10) } } : RBState).target.pos ∧
      (onUpdate (some ⟨0, 0, 100, 100⟩)
        { sampleRB with body := { initialBody with position := (10, 10) } }).target.rotation
        = ({ sampleRB with
            body := { initialBody with position := (10, 10) } } : RBState).target.rotation) ∧
    (onUpdate (some ⟨0, 0, 100, 100⟩)
        { sampleRB with body := { initialBody with position := (1, 1) } }).target.destroyed
      = ({ sampleRB with
          body := { initialBody with position := (1, 1) } } : RBState).target.destroyed ∧
    (onUpdate none sampleRB).target.destroyed = sampleRB.target.destroyed :=
  ⟨(onUpdate_boundary_spec _ _ (by decide)).1 _ rfl
      (by norm_num [containsPoint, to2DPos, pixelRatio, sampleRB, initialBody, sampleNode]),
   (onUpdate_boundary_spec _ _ (by decide)).2.1 _ rfl
      (by norm_num [containsPoint, to2DPos, pixelRatio, sampleRB, initialBody, sampleNode]),
   (onUpdate_boundary_spec _ _ (by decide)).2.2 rfl⟩

/-- C8: activating a binding not attached to a running scene surfaces the
precondition error to the caller and performs no body configuration: the
binding (body type, fixtures, position, angle, active flag) and the
registry are returned exactly as they were. -/
theorem onAwake_scene_required :
    ∀ (rb : RBState) (cat : CatState), rb.sceneAttached = false →
      onAwake rb cat = (some ("Please add to a scene first"), rb, cat) := by
  intro rb cat h
  unfold onAwake
  rw [if_pos h]

/-- Witness for C8 on a concrete unattached binding. -/
theorem onAwake_scene_required_witness :
    onAwake sampleRB initCatState = (some ("Please add to a scene first"), sampleRB, initCatState) :=
  onAwake_scene_required sampleRB initCatState rfl

/-- C10: addShape computes the fixture local offset as
shape.offset?.x ?? (0 + target.pivot.x): an explicit offset is converted
with toPhy and the pivot is not added, while a missing offset falls back to
the converted pivot; the circle fixture created after activation is
centered at exactly that offset. -/
theorem addShape_offset_pivot_spec :
    (∀ (shape : IShapeM) (pivot : ℚ × ℚ) (o : ℚ × ℚ), shape.offset = some o →
      shapeLocalOffset shape pivot = (toPhy o.1, toPhy o.2)) ∧
    (∀ (shape : IShapeM) (pivot : ℚ × ℚ), shape.offset = none →
      shapeLocalOffset shape pivot = (toPhy pivot.1, toPhy pivot.2)) ∧
    (∀ (rb : RBState) (cat : CatState) (shape : IShapeM),
      rb.awaked = true → shape.shapeType = ShapeType.circle →
      ∃ f : FixtureM,
        (addShape rb cat shape).1.body.fixtures = rb.body.fixtures ++ [f] ∧
        f.shape = FixShape.circle (shapeLocalOffset shape rb.target.pivot)
          (toPhy (match shape.width with | some w => w | none => rb.target.worldBounds.1))) := by
  refine ⟨?_, ?_, ?_⟩
  · intro shape pivot o h
    unfold shapeLocalOffset
    rw [h]
  · intro shape pivot h
    unfold shapeLocalOffset
    rw [h]
    simp [zero_add]
  · intro rb cat shape ha hs
    unfold addShape
    rw [ha, hs]
    exact ⟨_, rfl, rfl⟩

/-- Witness for C10: with offset (10, 20) and pivot (3, 4) the computed
offset is (toPhy 10, toPhy 20) - the pivot is ignored; with no offset it is
(toPhy 3, toPhy 4); an awaked binding receives a circle fixture centered at
the computed offset. -/
theorem addShape_offset_pivot_spec_witness :
    shapeLocalOffset ⟨ShapeType.circle, some 20, none, some (10, 20), none, none⟩ (3, 4)
      = (toPhy 10, toPhy 20) ∧
    shapeLocalOffset ⟨ShapeType.circle, some 20, none, none, none, none⟩ (3, 4)
      = (toPhy 3, toPhy 4) ∧
    ∃ f : FixtureM,
      (addShape { sampleRB with awaked := true } initCatState
          ⟨ShapeType.circle, some 20, none, some (10, 20), none, none⟩).1.body.fixtures
        = ({ sampleRB with awaked := true } : RBState).body.fixtures ++ [f] ∧
      f.shape = FixShape.circle
        (shapeLocalOffset ⟨ShapeType.circle, some 20, none, some (10, 20), none, none⟩
          ({ sampleRB with awaked := true } : RBState).target.pivot)
        (toPhy 20) :=
  ⟨addShape_offset_pivot_spec.1 _ (3, 4) (10, 20) rfl,
   addShape_offset_pivot_spec.2.1 _ (3, 4) rfl,
   addShape_offset_pivot_spec.2.2 _ initCatState _ rfl rfl⟩

end LikoPhysics
